import Mathlib

/-!
Verification development for `loggrep`, a streaming multi-phrase line search
utility (`src/loggrep.py`).  The Python source is shallowly embedded below:

* text is modelled as `String` / `List Char`; Python's substring test
  `needle in hay` becomes `isSub`;
* the decoded byte stream of a file is modelled by `Tok` (a correctly decoded
  character, or an invalid byte sequence that `errors="replace"` turns into
  U+FFFD) and by `Ev` (a yielded line, or an I/O error raised while fetching
  the next line, which the scanner's `except` clause catches);
* `search_phrases_in_file`, `get_files_to_search`, `search_phrases_in_text`
  and the per-file loop of `main` are translated function by function.

Builtin Python string methods (`casefold`, `lower`, `strip`) are modelled on
the characters exercised in this development and are the identity elsewhere.
-/

namespace Loggrep

/-- Python `needle.startswith`-style check on character lists: `listStarts n h`
is `true` iff `n` is an initial segment of `h` (the empty needle always is). -/
def listStarts : List Char → List Char → Bool
  | [], _ => true
  | _ :: _, [] => false
  | a :: as, b :: bs => a == b && listStarts as bs

/-- Python's substring operator `needle in hay` on character lists: `true` iff
`needle` occurs contiguously inside `hay` (the empty needle is in every hay). -/
def isSub (needle : List Char) : List Char → Bool
  | [] => listStarts needle []
  | b :: bs => listStarts needle (b :: bs) || isSub needle bs

/-- Model of Python `str.casefold` on a single character: full Unicode
casefolding restricted to the characters exercised in this development
(ASCII letters, sharp s which folds to "ss", Greek sigma forms), identity
elsewhere.  Casefolding may expand a character, hence the list result. -/
def caseFoldChar (c : Char) : List Char :=
  if 'A' ≤ c ∧ c ≤ 'Z' then [Char.ofNat (c.toNat + 32)]
  else if c = 'ß' then ['s', 's']
  else if c = 'ẞ' then ['s', 's']
  else if c = 'Σ' then ['σ']
  else if c = 'ς' then ['σ']
  else [c]

/-- Model of Python `str.casefold` on a character list. -/
def caseFoldL (l : List Char) : List Char :=
  (l.map caseFoldChar).flatten

/-- Model of Python `str.casefold` on a string. -/
def caseFoldStr (s : String) : String :=
  ⟨caseFoldL s.data⟩

/-- Model of Python `str.lower` on a single character: one-to-one lowercasing
restricted to the characters exercised in this development (note that
`lower`, unlike `casefold`, leaves the sharp s and the final sigma alone). -/
def lowerChar (c : Char) : Char :=
  if 'A' ≤ c ∧ c ≤ 'Z' then Char.ofNat (c.toNat + 32)
  else if c = 'Σ' then 'σ'
  else c

/-- Model of Python `str.lower` on a character list. -/
def lowerL (l : List Char) : List Char :=
  l.map lowerChar

/-- Python characters stripped by no-argument `str.strip` (ASCII whitespace;
enough for the inputs of this development). -/
def isPyWs (c : Char) : Bool :=
  c = ' ' || c = '\t' || c = '\n' || c = '\r' || c = '\x0b' || c = '\x0c'

/-- Model of Python `s.rstrip(c)` for a single-character strip set: remove
every trailing occurrence of `c`. -/
def rstripChar (c : Char) (l : List Char) : List Char :=
  (l.reverse.dropWhile (· == c)).reverse

/-- Model of Python no-argument `str.strip`: remove leading and trailing
whitespace. -/
def pyStrip (l : List Char) : List Char :=
  ((l.dropWhile isPyWs).reverse.dropWhile isPyWs).reverse

/-- The source's per-line normalization, `line.rstrip("\n").rstrip("\r")`
(src/loggrep.py line 58): strip all trailing newlines, then all trailing
carriage returns; everything else is preserved verbatim. -/
def stripNl (l : List Char) : List Char :=
  rstripChar '\r' (rstripChar '\n' l)

/-- One unit of the decoded stream of a text-mode file: a correctly decoded
character, or an invalid byte sequence in the underlying bytes. -/
inductive Tok where
  | ok (c : Char)
  | bad
deriving DecidableEq

/-- The decoding the source selects with `errors="replace"` (src/loggrep.py
line 52): total, every invalid byte sequence becomes the replacement
character U+FFFD, so decoding can never raise. -/
def decodeTok : Tok → Char
  | .ok c => c
  | .bad => '�'

/-- Decode one raw line of the stream. -/
def decodeLine (l : List Tok) : List Char :=
  l.map decodeTok

/-- One event produced by iterating a successfully opened file: the next raw
line, or an `OSError` raised mid-read (caught by the scanner's blanket
`except`, src/loggrep.py lines 112-113). -/
inductive Ev where
  | line (toks : List Tok)
  | err
deriving DecidableEq

/-- The observable behaviour of `open` + iteration on one path: the open
itself can fail with `FileNotFoundError`, otherwise iteration yields a
stream of events. -/
inductive FileData where
  | notFound
  | stream (evs : List Ev)

/-- The scanner's keyword configuration (src/loggrep.py lines 13-24), minus
`verbose` which only controls logging. -/
structure Config where
  caseSensitive : Bool
  matchAll : Bool
  printResults : Bool
  showLineNumbers : Bool
  filesOnly : Bool
  countOnly : Bool
  hasSink : Bool
deriving DecidableEq

/-- The per-line predicate of src/loggrep.py lines 60-69: compare the line
(case-folded unless case-sensitive) against the prepared phrases, requiring
all of them (`match_all`) or any of them. -/
def lineHit (cs ma : Bool) (sp : List String) (content : List Char) : Bool :=
  let searchLine := if cs then content else caseFoldL content
  if ma then sp.all fun p => isSub p.data searchLine
  else sp.any fun p => isSub p.data searchLine

/-- Format one matching line for output (src/loggrep.py lines 92-96). -/
def fmtMatch (sln : Bool) (filePath : String) (lineNum : Nat)
    (content : List Char) : String :=
  if sln then filePath ++ ":" ++ toString lineNum ++ ": " ++ ⟨content⟩
  else filePath ++ ": " ++ ⟨content⟩

/-- The scanner's main loop (src/loggrep.py lines 56-108) over the event
stream of an opened file, carrying the 1-based line number.  Returns the
match count together with the lines printed to standard output and the lines
written to the optional output file.  An `Ev.err` event models an exception
while fetching the next line: the blanket `except` stops the scan, keeping
the count and output accumulated so far (here: the suffix contributes
nothing).  In files-only mode the first match prints the path (stdout gated
by `print_results`, the sink not) and returns immediately. -/
def scanEvs (cfg : Config) (filePath : String) (sp : List String) :
    Nat → List Ev → Nat × List String × List String
  | _, [] => (0, [], [])
  | _, .err :: _ => (0, [], [])
  | lineNum, .line toks :: rest =>
    let content := stripNl (decodeLine toks)
    if lineHit cfg.caseSensitive cfg.matchAll sp content then
      if cfg.filesOnly then
        (1, if cfg.printResults then [filePath] else [],
            if cfg.hasSink then [filePath] else [])
      else if cfg.countOnly then
        let r := scanEvs cfg filePath sp (lineNum + 1) rest
        (r.1 + 1, r.2.1, r.2.2)
      else
        let out := fmtMatch cfg.showLineNumbers filePath lineNum content
        let r := scanEvs cfg filePath sp (lineNum + 1) rest
        (r.1 + 1, (if cfg.printResults then [out] else []) ++ r.2.1,
                  (if cfg.hasSink then [out] else []) ++ r.2.2)
    else
      scanEvs cfg filePath sp (lineNum + 1) rest

/-- Translation of `search_phrases_in_file` (src/loggrep.py lines 13-119):
prepare the phrases once (casefold them unless case-sensitive), then stream
the file.  `FileNotFoundError` on open is caught and yields zero matches and
no output.  Returns (match count, stdout lines, sink lines). -/
def search_phrases_in_file (filePath : String) (phrases : List String)
    (cfg : Config) (fd : FileData) : Nat × List String × List String :=
  let sp := if cfg.caseSensitive then phrases else phrases.map caseFoldStr
  match fd with
  | .notFound => (0, [], [])
  | .stream evs => scanEvs cfg filePath sp 1 evs

/-- A raw line whose every byte decodes correctly. -/
def okLine (s : String) : List Tok :=
  s.data.map Tok.ok

/-- A file that opens, decodes cleanly and ends without a read error. -/
def textFile (ss : List String) : FileData :=
  .stream (ss.map fun s => Ev.line (okLine s))

/-- A directory entry in the filesystem model: a regular file, or a
subdirectory with its own entries.  Non-regular specials are outside the
model (both `iterdir` and `rglob` results are filtered by `is_file`). -/
inductive Entry where
  | file (name : String)
  | dir (name : String) (children : List Entry)

/-- What the root path given to the enumerator resolves to: a regular file,
a directory with the given entries, or nothing. -/
inductive PathKind where
  | isFile
  | isDir (children : List Entry)
  | missing

/-- Joining a directory path with a child name, as `str(Path)` renders the
paths produced by `iterdir` / `rglob`. -/
def joinP (base name : String) : String :=
  base ++ "/" ++ name

/-- The non-recursive branch of `get_files_to_search` (src/loggrep.py lines
158-162): iterate the immediate entries of the directory, keeping the
regular files, in directory order. -/
def iterFiles (base : String) (es : List Entry) : List String :=
  es.filterMap fun e =>
    match e with
    | .file n => some (joinP base n)
    | .dir _ _ => none

/-- The recursive branch of `get_files_to_search` (src/loggrep.py lines
153-157): walk every entry under the directory, keeping exactly the regular
files (the `is_file` filter drops the directories themselves). -/
def rglobFiles (base : String) : List Entry → List String
  | [] => []
  | .file n :: rest => joinP base n :: rglobFiles base rest
  | .dir n cs :: rest => rglobFiles (joinP base n) cs ++ rglobFiles base rest

/-- Lexicographic order on character lists by Unicode code point, the order
Python's `sorted` applies to strings: a strict smaller head, or equal heads
and an ordered tail (the empty list first). -/
def lexLe : List Char → List Char → Bool
  | [], _ => true
  | _ :: _, [] => false
  | a :: as, b :: bs =>
    Nat.blt a.toNat b.toNat || (a.toNat == b.toNat && lexLe as bs)

/-- Lexicographic order on strings by code point, as Python's `sorted`
compares `str` values. -/
def strLe (a b : String) : Bool :=
  lexLe a.data b.data

/-- Python's `sorted` on a list of path strings, realized as a stable
insertion sort by `strLe` (stable sorts by the same total order agree). -/
def sortPaths (l : List String) : List String :=
  List.insertionSort (fun a b => strLe a b = true) l

/-- Translation of `get_files_to_search` (src/loggrep.py lines 122-172): a
regular file is returned as a singleton (no sort), a directory is walked
(recursively on request) and the collected files are sorted, a missing path
logs an error and yields the empty list. -/
def get_files_to_search (path : String) (kind : PathKind)
    (recursive : Bool) : List String :=
  match kind with
  | .isFile => [path]
  | .isDir es =>
    sortPaths (if recursive then rglobFiles path es else iterFiles path es)
  | .missing => []

/-- Reference predicate, following the spec's words: `ReachFile base es x`
holds iff `x` is the path of a regular file reachable anywhere in the tree
of entries `es` rooted at `base`. -/
inductive ReachFile : String → List Entry → String → Prop
  | here {base : String} {es : List Entry} {n : String}
      (hmem : Entry.file n ∈ es) : ReachFile base es (joinP base n)
  | deeper {base : String} {es : List Entry} {n : String} {cs : List Entry}
      {x : String} (hmem : Entry.dir n cs ∈ es)
      (hx : ReachFile (joinP base n) cs x) : ReachFile base es x

/-- Python `text.split("\n")`: cut the character list at every newline; the
result always has one more piece than there are newlines (so it is never
empty, and trailing newlines yield trailing empty pieces). -/
def splitNl : List Char → List (List Char)
  | [] => [[]]
  | c :: cs =>
    if c = '\n' then [] :: splitNl cs
    else
      match splitNl cs with
      | [] => [[c]]
      | h :: t => (c :: h) :: t

/-- The per-line body of `search_phrases_in_text` (src/loggrep.py lines
184-203), iterating over the split lines with 1-based numbering. -/
def textScan (phrases : List String) (caseSensitive matchAll : Bool) :
    Nat → List (List Char) → List String
  | _, [] => []
  | lineNum, l :: rest =>
    let lineContent := pyStrip l
    let searchLine := if caseSensitive then lineContent else lowerL lineContent
    let sp := if caseSensitive then phrases.map String.data
              else phrases.map fun p => lowerL p.data
    let ok := if matchAll then sp.all fun p => isSub p searchLine
              else sp.any fun p => isSub p searchLine
    if ok then
      (toString lineNum ++ ": " ++ ⟨lineContent⟩)
        :: textScan phrases caseSensitive matchAll (lineNum + 1) rest
    else textScan phrases caseSensitive matchAll (lineNum + 1) rest

/-- Translation of `search_phrases_in_text` (src/loggrep.py lines 175-205):
the in-memory helper splits on newlines, strips each line with no-argument
`strip`, lowercases with `lower` when case-insensitive (phrases re-lowered
per line, same result as once), and collects `"lineNum: content"` strings
for the matching lines. -/
def search_phrases_in_text (text : String) (phrases : List String)
    (caseSensitive : Bool) (matchAll : Bool) : List String :=
  textScan phrases caseSensitive matchAll 1 (splitNl text.data)

/-- The command-line flags consumed by `main` (src/loggrep.py lines
209-252); `recursive` and `verbose` do not influence the scanner's
configuration. -/
structure Args where
  ignoreCase : Bool
  anyMode : Bool
  recursive : Bool
  verbose : Bool
  noLineNumbers : Bool
  count : Bool
  filesOnly : Bool
  hasOutput : Bool

/-- How `main` wires the flags into the scanner call (src/loggrep.py lines
303-315); in particular `print_results = not args.count and not
args.files_only`. -/
def configOf (a : Args) : Config :=
  { caseSensitive := !a.ignoreCase
    matchAll := !a.anyMode
    printResults := !a.count && !a.filesOnly
    showLineNumbers := !a.noLineNumbers
    filesOnly := a.filesOnly
    countOnly := a.count
    hasSink := a.hasOutput }

/-- The per-file loop of `main` (src/loggrep.py lines 303-316): scan each
enumerated file in order, accumulating `total_matches`. -/
def mainLoop (a : Args) (phrases : List String) (fs : String → FileData) :
    List String → Nat → Nat
  | [], acc => acc
  | fp :: rest, acc =>
    mainLoop a phrases fs rest
      (acc + (search_phrases_in_file fp phrases (configOf a) (fs fp)).1)

/-- The orchestration of `main` (src/loggrep.py lines 252-316): enumerate,
return early when nothing was found to search, otherwise scan every file and
return the grand total. -/
def mainRun (a : Args) (phrases : List String) (path : String)
    (kind : PathKind) (fs : String → FileData) : Nat :=
  let files := get_files_to_search path kind a.recursive
  if files.isEmpty then 0
  else mainLoop a phrases fs files 0

/-- Repair one token: an invalid byte sequence becomes the replacement
character, a good character is untouched. -/
def cleanTok : Tok → Tok
  | .bad => .ok '�'
  | .ok c => .ok c

/-- Repair every invalid byte sequence in one stream event. -/
def cleanEv : Ev → Ev
  | .line toks => .line (toks.map cleanTok)
  | .err => .err

theorem decodeTok_cleanTok (t : Tok) : decodeTok (cleanTok t) = decodeTok t := by
  cases t <;> rfl

theorem decodeLine_cleanTok (l : List Tok) :
    decodeLine (l.map cleanTok) = decodeLine l := by
  induction l with
  | nil => rfl
  | cons t ts ih =>
    simp only [decodeLine, List.map_cons] at ih ⊢
    rw [decodeTok_cleanTok, ih]

theorem scanEvs_cleanEv (cfg : Config) (p : String) (sp : List String) :
    ∀ (n : Nat) (evs : List Ev),
    scanEvs cfg p sp n (evs.map cleanEv) = scanEvs cfg p sp n evs := by
  intro n evs
  induction evs generalizing n with
  | nil => rfl
  | cons e rest ih =>
    cases e with
    | err => rfl
    | line toks =>
      simp only [List.map_cons, cleanEv, scanEvs, decodeLine_cleanTok, ih]

theorem scanEvs_count_congr (p : String) (sp : List String)
    (cs ma pr sln co hs pr' sln' co' hs' : Bool) :
    ∀ (n : Nat) (evs : List Ev),
    (scanEvs ⟨cs, ma, pr, sln, false, co, hs⟩ p sp n evs).1
      = (scanEvs ⟨cs, ma, pr', sln', false, co', hs'⟩ p sp n evs).1 := by
  intro n evs
  induction evs generalizing n with
  | nil => rfl
  | cons e rest ih =>
    cases e with
    | err => rfl
    | line toks =>
      cases co <;> cases co' <;> simp only [scanEvs] <;> split <;> simp [ih]

theorem scanEvs_err (cfg : Config) (p : String) (sp : List String) :
    ∀ (n : Nat) (ls : List (List Tok)) (rest : List Ev),
    scanEvs cfg p sp n (ls.map Ev.line ++ Ev.err :: rest)
      = scanEvs cfg p sp n (ls.map Ev.line) := by
  intro n ls rest
  induction ls generalizing n with
  | nil => rfl
  | cons l tail ih =>
    simp only [List.map_cons, List.cons_append, scanEvs]
    split
    · split
      · rfl
      · split <;> simp [ih]
    · exact ih _

theorem mainLoop_sum (a : Args) (phrases : List String)
    (fs : String → FileData) :
    ∀ (files : List String) (acc : Nat),
    mainLoop a phrases fs files acc
      = acc + (files.map
          fun f => (search_phrases_in_file f phrases (configOf a) (fs f)).1).sum := by
  intro files
  induction files with
  | nil => intro acc; simp [mainLoop]
  | cons f rest ih =>
    intro acc
    simp only [mainLoop, List.map_cons, List.sum_cons, ih]
    omega

theorem lexLe_total : ∀ as bs : List Char, lexLe as bs = true ∨ lexLe bs as = true
  | [], _ => Or.inl rfl
  | _ :: _, [] => Or.inr rfl
  | a :: as, b :: bs => by
    rcases Nat.lt_trichotomy a.toNat b.toNat with h | h | h
    · left
      simp [lexLe, Nat.blt_eq, h]
    · rcases lexLe_total as bs with ih | ih
      · left
        simp [lexLe, Nat.blt_eq, h, ih]
      · right
        simp [lexLe, Nat.blt_eq, h.symm, ih]
    · right
      simp [lexLe, Nat.blt_eq, h]

theorem lexLe_trans : ∀ as bs cs : List Char,
    lexLe as bs = true → lexLe bs cs = true → lexLe as cs = true
  | [], _, _, _, _ => rfl
  | a :: as, [], _, h, _ => by simp [lexLe] at h
  | a :: as, b :: bs, [], _, h => by simp [lexLe] at h
  | a :: as, b :: bs, c :: cs, h1, h2 => by
    simp only [lexLe, Bool.or_eq_true, Bool.and_eq_true, Nat.blt_eq,
      beq_iff_eq] at h1 h2 ⊢
    rcases h1 with h1 | ⟨hab, h1⟩
    · rcases h2 with h2 | ⟨hbc, h2⟩
      · exact Or.inl (Nat.lt_trans h1 h2)
      · exact Or.inl (hbc ▸ h1)
    · rcases h2 with h2 | ⟨hbc, h2⟩
      · exact Or.inl (hab ▸ h2)
      · exact Or.inr ⟨hab.trans hbc, lexLe_trans as bs cs h1 h2⟩

instance strLeIsTotal : IsTotal String fun a b => strLe a b = true :=
  ⟨fun a b => lexLe_total a.data b.data⟩

instance strLeIsTrans : IsTrans String fun a b => strLe a b = true :=
  ⟨fun a b c => lexLe_trans a.data b.data c.data⟩

theorem sortPaths_sorted (l : List String) :
    List.Sorted (fun a b => strLe a b = true) (sortPaths l) :=
  List.sorted_insertionSort _ l

theorem sortPaths_perm (l : List String) : (sortPaths l).Perm l :=
  List.perm_insertionSort _ l

theorem mem_iterFiles (base : String) (es : List Entry) (x : String) :
    x ∈ iterFiles base es ↔ ∃ n, Entry.file n ∈ es ∧ x = joinP base n := by
  simp only [iterFiles, List.mem_filterMap]
  constructor
  · rintro ⟨e, he, hx⟩
    cases e with
    | file n => exact ⟨n, he, by simpa using hx.symm⟩
    | dir n cs => simp at hx
  · rintro ⟨n, hn, rfl⟩
    exact ⟨.file n, hn, rfl⟩

theorem reachFile_cons {base : String} {e : Entry} {es : List Entry}
    {x : String} (h : ReachFile base es x) : ReachFile base (e :: es) x := by
  cases h with
  | here hmem => exact .here (List.mem_cons_of_mem _ hmem)
  | deeper hmem hx => exact .deeper (List.mem_cons_of_mem _ hmem) hx

theorem reachFile_of_mem_file {base n : String} {es : List Entry}
    (h : Entry.file n ∈ es) : ReachFile base es (joinP base n) :=
  .here h

theorem mem_rglobFiles : ∀ (base : String) (es : List Entry) (x : String),
    x ∈ rglobFiles base es → ReachFile base es x
  | _, [], _, h => by rw [rglobFiles] at h; cases h
  | base, .file n :: rest, x, h => by
    rw [rglobFiles, List.mem_cons] at h
    rcases h with rfl | h
    · exact .here (List.mem_cons_self _ _)
    · exact reachFile_cons (mem_rglobFiles base rest x h)
  | base, .dir n cs :: rest, x, h => by
    rw [rglobFiles, List.mem_append] at h
    rcases h with h | h
    · exact .deeper (List.mem_cons_self _ _) (mem_rglobFiles (joinP base n) cs x h)
    · exact reachFile_cons (mem_rglobFiles base rest x h)

theorem rglobFiles_mem_file : ∀ (es : List Entry) (base n : String),
    Entry.file n ∈ es → joinP base n ∈ rglobFiles base es := by
  intro es
  induction es with
  | nil => intro base n h; cases h
  | cons e rest ih =>
    intro base n h
    rcases List.mem_cons.mp h with he | hr
    · subst he
      simp [rglobFiles]
    · cases e <;>
        simp only [rglobFiles, List.mem_cons, List.mem_append] <;>
        exact Or.inr (ih _ _ hr)

theorem rglobFiles_mem_dir : ∀ (es : List Entry) (base n : String)
    (cs : List Entry) (x : String), Entry.dir n cs ∈ es →
    x ∈ rglobFiles (joinP base n) cs → x ∈ rglobFiles base es := by
  intro es
  induction es with
  | nil => intro _ _ _ _ h; cases h
  | cons e rest ih =>
    intro base n cs x h hx
    rcases List.mem_cons.mp h with he | hr
    · subst he
      simp [rglobFiles, hx]
    · cases e <;>
        simp only [rglobFiles, List.mem_cons, List.mem_append] <;>
        exact Or.inr (ih _ _ _ _ hr hx)

theorem rglobFiles_of_reachFile {base : String} {es : List Entry} {x : String}
    (h : ReachFile base es x) : x ∈ rglobFiles base es := by
  induction h with
  | here hmem => exact rglobFiles_mem_file _ _ _ hmem
  | deeper hmem _ ih => exact rglobFiles_mem_dir _ _ _ _ _ hmem ih

theorem mem_rglobFiles_iff (base : String) (es : List Entry) (x : String) :
    x ∈ rglobFiles base es ↔ ReachFile base es x :=
  ⟨mem_rglobFiles base es x, rglobFiles_of_reachFile⟩

theorem rstripChar_decomp (c : Char) (l : List Char) :
    ∃ t, l = rstripChar c l ++ t ∧ ∀ x ∈ t, x = c := by
  refine ⟨(l.reverse.takeWhile (· == c)).reverse, ?_, ?_⟩
  · conv_lhs => rw [← l.reverse_reverse, ← List.takeWhile_append_dropWhile (p := (· == c)) (l := l.reverse)]
    rw [List.reverse_append]
    rfl
  · intro x hx
    rw [List.mem_reverse] at hx
    have hp := List.mem_takeWhile_imp hx
    exact beq_iff_eq.mp hp

theorem stripNl_decomp (l : List Char) :
    ∃ t, l = stripNl l ++ t ∧ ∀ x ∈ t, x = '\n' ∨ x = '\r' := by
  obtain ⟨t1, h1, ht1⟩ := rstripChar_decomp '\n' l
  obtain ⟨t2, h2, ht2⟩ := rstripChar_decomp '\r' (rstripChar '\n' l)
  refine ⟨t2 ++ t1, ?_, ?_⟩
  · rw [stripNl, ← List.append_assoc, ← h2, ← h1]
  · intro x hx
    rcases List.mem_append.mp hx with hx | hx
    · exact Or.inr (ht2 x hx)
    · exact Or.inl (ht1 x hx)

/-- Reference description of the normal output mode, following the spec's
words: number the decoded lines from 1, keep the lines whose stripped content
matches, and render each as `path:lineNum: content` (or `path: content`
without line numbers), in file order. -/
def specNormalOutput (sln : Bool) (path : String) (hit : List Char → Bool)
    (lineNum : Nat) (rawLines : List (List Char)) : List String :=
  ((List.enumFrom lineNum rawLines).filter fun q => hit (stripNl q.2)).map
    fun q => fmtMatch sln path q.1 (stripNl q.2)

theorem scanEvs_normal_stdout (p : String) (sp : List String)
    (cs ma sln hs : Bool) :
    ∀ (n : Nat) (ls : List (List Tok)),
    (scanEvs ⟨cs, ma, true, sln, false, false, hs⟩ p sp n (ls.map Ev.line)).2.1
      = specNormalOutput sln p (lineHit cs ma sp) n (ls.map decodeLine) := by
  intro n ls
  induction ls generalizing n with
  | nil => rfl
  | cons l tail ih =>
    simp only [List.map_cons, scanEvs, specNormalOutput, List.enumFrom_cons,
      List.filter_cons]
    split
    · simp only [if_false, if_true, ih]
      simp [specNormalOutput]
    · simp only [ih]
      simp [specNormalOutput]

theorem get_files_isDir_false (p : String) (es : List Entry) :
    get_files_to_search p (.isDir es) false = sortPaths (iterFiles p es) := rfl

theorem get_files_isDir_true (p : String) (es : List Entry) :
    get_files_to_search p (.isDir es) true = sortPaths (rglobFiles p es) := rfl

theorem scanEvs_nil_phrases (p : String) (cs pr sln co hs : Bool) :
    ∀ (n : Nat) (ls : List (List Tok)),
    (scanEvs ⟨cs, true, pr, sln, false, co, hs⟩ p [] n (ls.map Ev.line)).1
        = ls.length
    ∧ (scanEvs ⟨cs, false, pr, sln, false, co, hs⟩ p [] n (ls.map Ev.line)).1
        = 0 := by
  intro n ls
  induction ls generalizing n with
  | nil => exact ⟨rfl, rfl⟩
  | cons l tail ih =>
    obtain ⟨ih1, ih2⟩ := ih (n + 1)
    cases co <;>
      simp [scanEvs, lineHit, ih1, ih2, List.length_cons]

/-- C1: the files-only short-circuit evaluated at the failing input.  Running
the CLI as `loggrep log.txt ERROR -l` on a file whose first and third lines
match, `main` wires `print_results = not count and not files_only = false`
into the scanner, so the files-only branch prints nothing at all to standard
output (first conjunct: count 1 — the scan did stop at the first match — but
the stdout stream is empty, although the `-l` help text promises the file
name).  With printing enabled, as the scanner's own default has it, the path
would have been emitted exactly once (second conjunct). -/
theorem c1_files_only_cli_prints_nothing :
    search_phrases_in_file "log.txt" ["ERROR"]
        (configOf ⟨false, false, false, false, false, false, true, false⟩)
        (textFile ["ERROR: db failed", "ok line", "ERROR: payment failed"])
      = (1, [], [])
    ∧ search_phrases_in_file "log.txt" ["ERROR"]
        ⟨true, true, true, true, true, false, false⟩
        (textFile ["ERROR: db failed", "ok line", "ERROR: payment failed"])
      = (1, ["log.txt"], []) := by
  exact ⟨by decide, by decide⟩

/-- C2: decoding never aborts the scan.  The scanner opened with
`errors="replace"` behaves on a stream containing invalid byte sequences
exactly as on the stream in which every invalid sequence is replaced by the
placeholder character: same count, same output, every remaining line still
scanned; and the placeholder is U+FFFD. -/
theorem c2_decode_errors_replaced (path : String) (phrases : List String)
    (cfg : Config) (evs : List Ev) :
    search_phrases_in_file path phrases cfg (.stream (evs.map cleanEv))
      = search_phrases_in_file path phrases cfg (.stream evs)
    ∧ decodeTok Tok.bad = '�' := by
  refine ⟨?_, rfl⟩
  simp only [search_phrases_in_file]
  exact scanEvs_cleanEv _ path _ 1 evs

/-- C3: the returned match count of a non-files-only scan depends only on
the file, the phrases, `caseSensitive` and `matchAll`: the output-mode flags
(`printResults`, `showLineNumbers`, `countOnly`, the sink) may all differ
and the count is unchanged — in particular normal mode and count-only mode
return the same count for the same (F, P, matchAll, caseSensitive). -/
theorem c3_count_independent_of_output_mode (path : String)
    (phrases : List String) (cs ma pr sln co hs pr' sln' co' hs' : Bool)
    (fd : FileData) :
    (search_phrases_in_file path phrases ⟨cs, ma, pr, sln, false, co, hs⟩ fd).1
      = (search_phrases_in_file path phrases
          ⟨cs, ma, pr', sln', false, co', hs'⟩ fd).1 := by
  cases fd with
  | notFound => rfl
  | stream evs =>
    simp only [search_phrases_in_file]
    exact scanEvs_count_congr path _ cs ma pr sln co hs pr' sln' co' hs' 1 evs

/-- C4: the enumerator returns a singleton for a regular file; for a
directory the returned sequence is sorted lexicographically by path string,
contains (without `recursive`) exactly the immediate regular-file children,
and (with `recursive`) exactly the regular files reachable anywhere in the
tree. -/
theorem c4_enumerator_contract (p : String) (es : List Entry) (r : Bool)
    (x : String) :
    get_files_to_search p .isFile r = [p]
    ∧ List.Sorted (fun a b => strLe a b = true)
        (get_files_to_search p (.isDir es) r)
    ∧ (x ∈ get_files_to_search p (.isDir es) false
        ↔ ∃ n, Entry.file n ∈ es ∧ x = joinP p n)
    ∧ (x ∈ get_files_to_search p (.isDir es) true ↔ ReachFile p es x) := by
  refine ⟨rfl, ?_, ?_, ?_⟩
  · cases r <;> exact sortPaths_sorted _
  · rw [get_files_isDir_false, (sortPaths_perm _).mem_iff, mem_iterFiles]
  · rw [get_files_isDir_true, (sortPaths_perm _).mem_iff, mem_rglobFiles_iff]

/-- C5: in normal mode the standard-output stream is exactly the matching
lines in file order, rendered `path:lineNum: content` with 1-based line
numbers (or `path: content` when line numbers are off), where the content is
the decoded line with only trailing newline, then trailing carriage-return,
characters removed — the second conjunct certifies that the stripping only
ever removes a trailing run of such characters, leaving the rest verbatim. -/
theorem c5_normal_output_format (path : String) (phrases : List String)
    (cs ma sln hs : Bool) (ls : List (List Tok)) (l : List Char) :
    (search_phrases_in_file path phrases ⟨cs, ma, true, sln, false, false, hs⟩
        (.stream (ls.map Ev.line))).2.1
      = specNormalOutput sln path
          (lineHit cs ma (if cs then phrases else phrases.map caseFoldStr)) 1
          (ls.map decodeLine)
    ∧ ∃ t, l = stripNl l ++ t ∧ ∀ x ∈ t, x = '\n' ∨ x = '\r' := by
  refine ⟨?_, stripNl_decomp l⟩
  simp only [search_phrases_in_file]
  exact scanEvs_normal_stdout path _ cs ma sln hs 1 ls

/-- C6: per-file failures are isolated.  A file that fails to open yields
zero matches and no output; an I/O error raised mid-scan makes the scan of
that file behave exactly like the scan of the truncated file containing only
the lines read before the error (count and output accumulated so far); and
the per-file loop of `main` still adds up every file's own count, so one
failing file never disturbs the remaining files. -/
theorem c6_per_file_errors_isolated (path : String) (phrases : List String)
    (cfg : Config) (ls : List (List Tok)) (rest : List Ev) (a : Args)
    (phr : List String) (files : List String) (fs : String → FileData) :
    search_phrases_in_file path phrases cfg .notFound = (0, [], [])
    ∧ search_phrases_in_file path phrases cfg
          (.stream (ls.map Ev.line ++ Ev.err :: rest))
        = search_phrases_in_file path phrases cfg (.stream (ls.map Ev.line))
    ∧ mainLoop a phr fs files 0
        = (files.map
            fun f => (search_phrases_in_file f phr (configOf a) (fs f)).1).sum := by
  refine ⟨rfl, ?_, ?_⟩
  · simp only [search_phrases_in_file]
    exact scanEvs_err cfg path _ 1 ls rest
  · simpa using mainLoop_sum a phr fs files 0

/-- C7: a path that is neither an existing file nor a directory makes the
enumerator yield the empty list (after logging), and `main` then reports
"no files to search" and returns a total of 0 instead of crashing. -/
theorem c7_missing_path_nonfatal (p : String) (r : Bool) (a : Args)
    (phrases : List String) (fs : String → FileData) :
    get_files_to_search p .missing r = []
    ∧ mainRun a phrases p .missing fs = 0 :=
  ⟨rfl, rfl⟩

/-- C8: with case-insensitivity enabled, matching is invariant under
re-casing of the phrases: any two phrase lists with the same casefolded
images produce identical results (count, stdout and sink) on every file,
because the scanner compares casefolded phrases — folded once per file
invocation — against the casefolded line. -/
theorem c8_casefold_recasing_invariant (path : String) (cfg : Config)
    (fd : FileData) (P Q : List String) (hcs : cfg.caseSensitive = false)
    (hfold : P.map caseFoldStr = Q.map caseFoldStr) :
    search_phrases_in_file path P cfg fd
      = search_phrases_in_file path Q cfg fd := by
  simp only [search_phrases_in_file, hcs, Bool.false_eq_true, if_false, hfold]

/-- C8 witness: at the concrete configuration of `--ignore-case`, searching
for "ERROR" and searching for "error" give identical results on a concrete
file, the hypotheses being discharged by computation. -/
theorem c8_casefold_recasing_invariant_witness :
    ((⟨false, true, true, true, false, false, false⟩ : Config).caseSensitive
        = false
    ∧ ["ERROR"].map caseFoldStr = ["error"].map caseFoldStr)
    ∧ search_phrases_in_file "app.log" ["ERROR"]
        ⟨false, true, true, true, false, false, false⟩
        (textFile ["a fatal Error here", "all fine"])
      = search_phrases_in_file "app.log" ["error"]
        ⟨false, true, true, true, false, false, false⟩
        (textFile ["a fatal Error here", "all fine"]) :=
  ⟨⟨rfl, by decide⟩,
    c8_casefold_recasing_invariant "app.log"
      ⟨false, true, true, true, false, false, false⟩
      (textFile ["a fatal Error here", "all fine"])
      ["ERROR"] ["error"] rfl (by decide)⟩

/-- C9: the in-text helper and the file-streaming scanner implement
different per-line normalizations (ASCII `lower` plus full `strip` versus
Unicode `casefold` plus newline-only strip) and genuinely disagree: a
leading-space phrase matches in the file path but not in the helper, and a
sharp-s phrase matches case-insensitively in the file path (casefold folds
"ß" to "ss") but not in the helper (`lower` keeps "ß"). -/
theorem c9_text_vs_file_normalization_disagree :
    search_phrases_in_text "  ERROR" [" ERROR"] true true = []
    ∧ (search_phrases_in_file "f.log" [" ERROR"]
        ⟨true, true, true, true, false, false, false⟩
        (textFile ["  ERROR"])).1 = 1
    ∧ search_phrases_in_text "STRASSE" ["straße"] false true = []
    ∧ (search_phrases_in_file "f.log" ["straße"]
        ⟨false, true, true, true, false, false, false⟩
        (textFile ["STRASSE"])).1 = 1 := by
  exact ⟨by decide, by decide, by decide, by decide⟩

/-- C10: with an empty phrase list the two match modes are asymmetric — in
ALL mode the universally quantified predicate is vacuously true, so every
line of the file counts as a match, while in ANY mode no line matches and
the count is 0 (stated for non-files-only scans, where no short-circuit
truncates the count). -/
theorem c10_empty_phrase_list_asymmetry (path : String)
    (cs pr sln co hs : Bool) (ls : List (List Tok)) :
    (search_phrases_in_file path [] ⟨cs, true, pr, sln, false, co, hs⟩
        (.stream (ls.map Ev.line))).1 = ls.length
    ∧ (search_phrases_in_file path [] ⟨cs, false, pr, sln, false, co, hs⟩
        (.stream (ls.map Ev.line))).1 = 0 := by
  have h := scanEvs_nil_phrases path cs pr sln co hs 1 ls
  simpa [search_phrases_in_file] using h

end Loggrep
